import Mathlib

/-!
Shallow embedding of `src/dynamic-particle-pool.js` (Peer5/three-dynamic-particle-pool).

Modelling conventions:
* JS numbers that take part in ratio arithmetic (`maximumParticles`,
  `defaultAdjustmentRatio`, grow/shrink arguments) are modelled as ℚ; handle
  counts and segment sizes are Nat; timestamps (`Date.now()`) are ℤ (ms).
* A particle (`THREE.Vector3` with a `free` method) is a `Handle`: a numeric
  identity `hid` plus `owner`, the id of the pool (segment) whose closure its
  `free` method captured at creation time.
* A pool entry pushed by `createGeometry` is a `Pool`: its id, its `size`
  (set to `available.length` at creation) and its `available` queue.
  `available.shift()` removes the queue head; `available.push(x)` appends.
* The scene-graph collaborator (`object3d.add` / `object3d.remove` plus the
  `dispose` calls) is modelled by the `attachLog` / `detachLog` event lists;
  removed pools (after `available.length = 0`) are recorded in `destroyed`.
* Particle positions (`particle.set(offPos...)`) live in the association list
  `positions` (latest write first).
* `getOrCreateParticle` recurses in JS; with `particlesPerGeometry ≥ 1`
  (guaranteed by option defaulting, `opts.particlesPerGeometry || 1500`) the
  recursion depth is at most 2, which `getOrCreateAux_fuel` proves, so the
  embedding runs the recursion on fuel 2.
-/

namespace DPP

/-- A particle: `hid` is its identity, `owner` the id of the pool whose
closure its `free` method captured. -/
structure Handle where
  hid : Nat
  owner : Nat
deriving DecidableEq, Repr

/-- One entry of the `pools` array: created by `createGeometry` with
`size = available.length` and a full `available` queue. -/
structure Pool where
  pid : Nat
  size : Nat
  available : List Handle
deriving DecidableEq, Repr

/-- The closure state of one `DynamicParticlePool` instance: the resolved
options, the `pools` array, `lastCleanup`, and the modelled collaborator
logs. `nextPid` / `nextHid` supply fresh identities for new pools/particles. -/
structure PoolState where
  maximumParticles : ℚ
  minimumParticles : Nat
  particlesPerGeometry : Nat
  cleanupInterval : ℤ
  adjustmentRatio : ℚ
  offPos : ℤ × ℤ × ℤ
  pools : List Pool
  nextPid : Nat
  nextHid : Nat
  lastCleanup : ℤ
  attachLog : List Nat
  detachLog : List Nat
  destroyed : List Pool
  positions : List (Nat × (ℤ × ℤ × ℤ))
deriving DecidableEq, Repr

/-- Raw constructor options before defaulting. `maximumParticles = 0`,
`particlesPerGeometry = 0`, `cleanupInterval = 0`, `adjustmentRatio = 0`
stand for a falsy / absent option (the JS code defaults them with `||`);
`minimumParticles` uses a `typeof === number` test, so `none` stands for
"not a number" and `some 0` is kept as 0. -/
structure Options where
  maximumParticles : ℚ := 0
  minimumParticles : Option Nat := none
  particlesPerGeometry : Nat := 0
  cleanupInterval : ℤ := 0
  adjustmentRatio : ℚ := 0
  offScreenPosition : Option (ℤ × ℤ × ℤ) := none
deriving DecidableEq, Repr

/-- `opts.x = opts.x || default` style resolution performed at the top of the
constructor. -/
def resolve (o : Options) : Options where
  maximumParticles := if o.maximumParticles = 0 then 100000 else o.maximumParticles
  minimumParticles := some (o.minimumParticles.getD 3000)
  particlesPerGeometry := if o.particlesPerGeometry = 0 then 1500 else o.particlesPerGeometry
  cleanupInterval := if o.cleanupInterval = 0 then 30000 else o.cleanupInterval
  adjustmentRatio := if o.adjustmentRatio = 0 then 11 / 10 else o.adjustmentRatio
  offScreenPosition := some (o.offScreenPosition.getD (9999999, 9999999, 9999999))

/-- The handles created by one `createGeometry` call: `particlesPerGeometry`
fresh particles, ids `start, start+1, ...`, all owned by pool `owner`. -/
def mkHandles (owner start n : Nat) : List Handle :=
  (List.range n).map fun i => ⟨start + i, owner⟩

/-- `createGeometry()`: builds a new geometry of `particlesPerGeometry`
particles (each initialised at the off-screen position and pushed onto the
new pool's `available` queue), attaches the mesh to the collaborator
(`object3d.add`), and appends the pool record to `pools`. -/
def createGeometry (s : PoolState) : PoolState :=
  let hs := mkHandles s.nextPid s.nextHid s.particlesPerGeometry
  { s with
    pools := s.pools ++ [⟨s.nextPid, hs.length, hs⟩]
    nextPid := s.nextPid + 1
    nextHid := s.nextHid + s.particlesPerGeometry
    attachLog := s.attachLog ++ [s.nextPid]
    positions := (hs.map fun h => (h.hid, s.offPos)) ++ s.positions }

/-- `var i = Math.ceil(opts.minimumParticles / opts.particlesPerGeometry) || 0;
while (i--) createGeometry();` -/
def createGeometries : Nat → PoolState → PoolState
  | 0, s => s
  | n + 1, s => createGeometries n (createGeometry s)

/-- The constructor `DynamicParticlePool(object3d, options)`: resolve the
options, start from an empty closure state, and pre-allocate
`ceil(minimumParticles / particlesPerGeometry)` geometries. -/
def mkPoolState (o : Options) (now : ℤ) : PoolState :=
  let r := resolve o
  let ppg := r.particlesPerGeometry
  let base : PoolState :=
    { maximumParticles := r.maximumParticles
      minimumParticles := r.minimumParticles.getD 0
      particlesPerGeometry := ppg
      cleanupInterval := r.cleanupInterval
      adjustmentRatio := r.adjustmentRatio
      offPos := r.offScreenPosition.getD (9999999, 9999999, 9999999)
      pools := []
      nextPid := 0
      nextHid := 0
      lastCleanup := now
      attachLog := []
      detachLog := []
      destroyed := []
      positions := [] }
  createGeometries ((r.minimumParticles.getD 0 + ppg - 1) / ppg) base

/-- The `pools.some(...)` scan inside `getOrCreateParticle`: walk the pools
in order; at the first pool with a non-empty `available` queue, `shift()` its
head and stop; otherwise accumulate `count += pool.size` and stop (without a
particle) as soon as `count > maximumParticles`. Returns the particle found
(if any), the pools after the scan, and the final `count`. -/
def scanPools (maxP : ℚ) : Nat → List Pool → Option Handle × List Pool × Nat
  | c, [] => (none, [], c)
  | c, p :: ps =>
    match p.available with
    | h :: t => (some h, { p with available := t } :: ps, c)
    | [] =>
      let c2 := c + p.size
      if (c2 : ℚ) > maxP then (none, p :: ps, c2)
      else
        let r := scanPools maxP c2 ps
        (r.1, p :: r.2.1, r.2.2)

/-- `getOrCreateParticle()` with explicit fuel for the JS self-recursion
(`if (!particle && count < opts.maximumParticles) { createGeometry();
return getOrCreateParticle(); }`). -/
def getOrCreateAux : Nat → PoolState → Option Handle × PoolState
  | 0, s => (none, s)
  | n + 1, s =>
    let r := scanPools s.maximumParticles 0 s.pools
    match r.1 with
    | some h => (some h, { s with pools := r.2.1 })
    | none =>
      if ((r.2.2 : ℚ) < s.maximumParticles) then
        getOrCreateAux n (createGeometry { s with pools := r.2.1 })
      else
        (none, { s with pools := r.2.1 })

/-- `getOrCreateParticle()` (also the public `getParticle()`):
returns `none` for the JS `null`. Fuel 2 is exact whenever
`particlesPerGeometry ≥ 1`; see `getOrCreateAux_fuel`. -/
def getOrCreateParticle (s : PoolState) : Option Handle × PoolState :=
  getOrCreateAux 2 s

/-- The error thrown by `freePoolParticle` when `this` is falsy or has no
callable `free` property. -/
inductive FreeError where
  | invalidHandleContext
deriving DecidableEq, Repr

/-- Record a `particle.set(x, y, z)` write. -/
def setPosition (s : PoolState) (hid : Nat) (pos : ℤ × ℤ × ℤ) : PoolState :=
  { s with positions := (hid, pos) :: s.positions }

/-- Current position of a particle (latest write wins). -/
def posOf (s : PoolState) (hid : Nat) : ℤ × ℤ × ℤ :=
  ((s.positions.find? fun q => q.1 = hid).map Prod.snd).getD (0, 0, 0)

/-- Push a handle onto the `available` queue captured by the `free` closure
of the pool with id `segPid` (pool ids are unique in every state the
constructor can build, so first-match is the owning pool's queue). -/
def pushAvailable (segPid : Nat) (h : Handle) : List Pool → List Pool
  | [] => []
  | p :: ps =>
    if p.pid = segPid then { p with available := p.available ++ [h] } :: ps
    else p :: pushAvailable segPid h ps

/-- `freePoolParticle.call(ctx)` for the closure belonging to pool `segPid`.
`ctx = none` models a falsy `this` or a `this` without a callable `free`
property (the only situations the JS guard rejects); `ctx = some h` models
any particle context, its own segment's or another's. On success the
particle is moved off screen and pushed onto pool `segPid`'s queue. -/
def freePoolParticle (segPid : Nat) (ctx : Option Handle) (s : PoolState) :
    Except FreeError PoolState :=
  match ctx with
  | none => .error .invalidHandleContext
  | some h =>
    let s1 := setPosition s h.hid s.offPos
    .ok { s1 with pools := pushAvailable segPid h s1.pools }

/-- A correctly routed `handle.free()` call: the context is the handle itself
and the closure is the one of its owning pool. -/
def freeHandle (h : Handle) (s : PoolState) : PoolState :=
  match freePoolParticle h.owner (some h) s with
  | .ok s1 => s1
  | .error _ => s

/-- The `pools.forEach` pass of `cleanUp()` computing `firstIdlePoolIndex`:
one past the last pool whose `available.length` differs from its `size`. -/
def firstIdleAux : Nat → Nat → List Pool → Nat
  | acc, _, [] => acc
  | acc, i, p :: ps =>
    firstIdleAux (if p.available.length ≠ p.size then i + 1 else acc) (i + 1) ps

/-- `firstIdlePoolIndex` over a pools list. -/
def firstIdleIndex (ps : List Pool) : Nat :=
  firstIdleAux 0 0 ps

/-- A removed pool after cleanup processed it (`pool.available.length = 0`). -/
def clearPool (p : Pool) : Pool :=
  { p with available := [] }

/-- `cleanUp()`: if more than one trailing pool is fully idle, splice out all
of them except the first (`pools.splice(firstIdlePoolIndex + 1, idlePools - 1)`),
and for each removed pool detach its mesh from the collaborator
(`object3d.remove`, plus the `dispose` calls) and clear its queue. -/
def cleanUp (s : PoolState) : PoolState :=
  let fi := firstIdleIndex s.pools
  let idle := s.pools.length - fi
  if 1 < idle then
    let removed := s.pools.drop (fi + 1)
    { s with
      pools := s.pools.take (fi + 1)
      detachLog := s.detachLog ++ removed.map Pool.pid
      destroyed := s.destroyed ++ removed.map clearPool }
  else s

/-- `update()` at time `now`: the `verticesNeedUpdate` pass-through to the
renderer carries no pool state and is not modelled; then
`if (Date.now() - lastCleanup > opts.cleanupInterval) { cleanUp();
lastCleanup = Date.now(); }`. -/
def update (now : ℤ) (s : PoolState) : PoolState :=
  if now - s.lastCleanup > s.cleanupInterval then
    { cleanUp s with lastCleanup := now }
  else s

/-- JS truthiness for an optional numeric argument: `0` is falsy. -/
def truthy : Option ℚ → Option ℚ
  | none => none
  | some x => if x = 0 then none else some x

/-- `Math.min` on two (non-NaN) numbers. -/
def jsMin (a b : ℚ) : ℚ :=
  if a ≤ b then a else b

/-- `Math.max` on two (non-NaN) numbers. -/
def jsMax (a b : ℚ) : ℚ :=
  if a ≤ b then b else a

/-- `increasePool(ratio, absoluteCount)`. -/
def increasePool (ratio absoluteCount : Option ℚ) (s : PoolState) : PoolState :=
  match truthy absoluteCount with
  | some a => { s with maximumParticles := a }
  | none =>
    let r := (truthy ratio).getD s.adjustmentRatio
    let maxValue : ℚ := (s.pools.length + 1) * s.particlesPerGeometry
    { s with maximumParticles := jsMin (s.maximumParticles * r) maxValue }

/-- `decreasePool(ratio, absoluteCount)`. -/
def decreasePool (ratio absoluteCount : Option ℚ) (s : PoolState) : PoolState :=
  match truthy absoluteCount with
  | some a => { s with maximumParticles := a }
  | none =>
    let r := (truthy ratio).getD s.adjustmentRatio
    let v := jsMax (jsMax (s.maximumParticles / r) (s.particlesPerGeometry : ℚ)) (s.minimumParticles : ℚ)
    { s with maximumParticles := v }

/-- All handles currently sitting in `available` queues, in pool order. -/
def avails : List Pool → List Handle
  | [] => []
  | p :: ps => p.available ++ avails ps

/-- Total `size` of a list of pools. -/
def sumSizes : List Pool → Nat
  | [] => 0
  | p :: ps => p.size + sumSizes ps

/-- One caller-visible operation on the pool: an `allocate`
(`getParticle()`) or a correctly routed `handle.free()`. -/
inductive Op where
  | alloc : Op
  | free : Handle → Op

/-- Run one operation; the second component is the ghost list of live
handles: those returned by `allocate` and not freed since. -/
def stepOp (st : PoolState × List Handle) : Op → PoolState × List Handle
  | Op.alloc =>
    let r := getOrCreateParticle st.1
    match r.1 with
    | some h => (r.2, h :: st.2)
    | none => (r.2, st.2)
  | Op.free h => (freeHandle h st.1, st.2.erase h)

/-- Run a sequence of operations. -/
def runOps : PoolState × List Handle → List Op → PoolState × List Handle
  | st, [] => st
  | st, op :: ops => runOps (stepOp st op) ops

/-- A sequence of operations respecting the free contract of the spec
(§4.3: "caller supplies a Handle previously returned by allocate()"): each
`free` targets a handle that is live at that point. -/
def ValidOps : PoolState × List Handle → List Op → Prop
  | _, [] => True
  | st, Op.alloc :: ops => ValidOps (stepOp st Op.alloc) ops
  | st, Op.free h :: ops => h ∈ st.2 ∧ ValidOps (stepOp st (Op.free h)) ops

/-! ### Concrete states used by witnesses and counterexamples.
All ℚ-valued fields are integers so that kernel evaluation stays cheap. -/

/-- A template closure state for building concrete test states. -/
def baseState : PoolState where
  maximumParticles := 0
  minimumParticles := 0
  particlesPerGeometry := 1
  cleanupInterval := 30000
  adjustmentRatio := 2
  offPos := (9999999, 9999999, 9999999)
  pools := []
  nextPid := 0
  nextHid := 0
  lastCleanup := 0
  attachLog := []
  detachLog := []
  destroyed := []
  positions := []

/-- Reached from a pool built with `minimumParticles = 20`,
`particlesPerGeometry = 5`, `maximumParticles = 10` after 15 allocations:
segments 0..2 exhausted, segment 3 untouched. -/
def c1s : PoolState :=
  { baseState with
    maximumParticles := 10, particlesPerGeometry := 5, minimumParticles := 20,
    pools := [⟨0, 5, []⟩, ⟨1, 5, []⟩, ⟨2, 5, []⟩,
      ⟨3, 5, [⟨15, 3⟩, ⟨16, 3⟩, ⟨17, 3⟩, ⟨18, 3⟩, ⟨19, 3⟩]⟩],
    nextPid := 4, nextHid := 20, attachLog := [0, 1, 2, 3] }

/-- State with one exhausted segment before the first segment holding
particles. -/
def w1 : PoolState :=
  { baseState with
    maximumParticles := 5, particlesPerGeometry := 2,
    pools := [⟨0, 1, []⟩, ⟨1, 2, [⟨3, 1⟩, ⟨4, 1⟩]⟩, ⟨2, 2, [⟨5, 2⟩]⟩],
    nextPid := 3, nextHid := 6, attachLog := [0, 1, 2] }

/-- Constructor options for the uniqueness run. -/
def w2o : Options :=
  { maximumParticles := 5, minimumParticles := some 0, particlesPerGeometry := 2,
    adjustmentRatio := 2 }

/-- The pool state after one allocation on `mkPoolState w2o 0`. -/
def w2s : PoolState :=
  { baseState with
    maximumParticles := 5, particlesPerGeometry := 2,
    pools := [⟨0, 2, [⟨1, 0⟩]⟩], nextPid := 1, nextHid := 2, attachLog := [0],
    positions := [(0, (9999999, 9999999, 9999999)), (1, (9999999, 9999999, 9999999))] }

/-- A fully exhausted pool at its capacity limit. -/
def w3 : PoolState :=
  { baseState with
    maximumParticles := 2, particlesPerGeometry := 2,
    pools := [⟨0, 2, []⟩], nextPid := 1, nextHid := 2, attachLog := [0] }

/-- Three fully idle segments awaiting cleanup. -/
def w4 : PoolState :=
  { baseState with
    pools := [⟨0, 1, [⟨0, 0⟩]⟩, ⟨1, 1, [⟨1, 1⟩]⟩, ⟨2, 1, [⟨2, 2⟩]⟩],
    nextPid := 3, nextHid := 3, attachLog := [0, 1, 2] }

/-- Constructor options for the round-trip counterexample run. -/
def c5o : Options :=
  { maximumParticles := 9, minimumParticles := some 0, particlesPerGeometry := 2,
    adjustmentRatio := 2 }

/-- The pool state after one allocation on `mkPoolState c5o 0`: handle 0
was returned by `allocate` (and is live), handle 1 is still in segment 0's
queue. -/
def c5s : PoolState :=
  { baseState with
    maximumParticles := 9, particlesPerGeometry := 2,
    pools := [⟨0, 2, [⟨1, 0⟩]⟩], nextPid := 1, nextHid := 2, attachLog := [0],
    positions := [(0, (9999999, 9999999, 9999999)), (1, (9999999, 9999999, 9999999))] }

/-- Two exhausted one-particle segments. -/
def w5 : PoolState :=
  { baseState with
    maximumParticles := 5,
    pools := [⟨0, 1, []⟩, ⟨1, 1, []⟩], nextPid := 2, nextHid := 2, attachLog := [0, 1] }

/-- The result of the correctly routed free of handle 1 on `w5`. -/
def w5f : PoolState :=
  { w5 with
    pools := [⟨0, 1, []⟩, ⟨1, 1, [⟨1, 1⟩]⟩],
    positions := [(1, (9999999, 9999999, 9999999))] }

/-- Two exhausted segments; segment 1 owns handle 7. -/
def c6s : PoolState :=
  { baseState with
    maximumParticles := 2,
    pools := [⟨0, 1, []⟩, ⟨1, 1, []⟩], nextPid := 2, nextHid := 2, attachLog := [0, 1] }

/-- One exhausted segment owning handle 3. -/
def w6 : PoolState :=
  { baseState with
    maximumParticles := 1,
    pools := [⟨0, 1, []⟩], nextPid := 1, nextHid := 1, attachLog := [0] }

/-- The result of the correctly routed free of handle 3 on `w6`. -/
def w6f : PoolState :=
  { w6 with
    pools := [⟨0, 1, [⟨3, 0⟩]⟩],
    positions := [(3, (9999999, 9999999, 9999999))] }

/-- Constructor options with a falsy `maximumParticles` of 0. -/
def c7o : Options :=
  { maximumParticles := 0, minimumParticles := some 0, particlesPerGeometry := 1,
    adjustmentRatio := 2 }

/-- A state whose internal capacity limit is 0 but which still holds an
available pre-allocated particle. -/
def w7 : PoolState :=
  { baseState with
    maximumParticles := 0,
    pools := [⟨0, 1, [⟨0, 0⟩]⟩], nextPid := 1, nextHid := 1, attachLog := [0] }

/-- One exhausted segment of five particles with headroom in the limit. -/
def w8 : PoolState :=
  { baseState with
    maximumParticles := 100, particlesPerGeometry := 5,
    pools := [⟨0, 5, []⟩], nextPid := 1, nextHid := 5, attachLog := [0] }

/-- A state whose cleanup interval is 10 ms with the last cleanup at 0. -/
def c9s : PoolState :=
  { baseState with cleanupInterval := 10 }

/-- Reached from a pool built with `minimumParticles = 12`,
`particlesPerGeometry = 4`, `maximumParticles = 7` after 8 allocations:
segments 0 and 1 exhausted, segment 2 untouched. -/
def c10s : PoolState :=
  { baseState with
    maximumParticles := 7, particlesPerGeometry := 4, minimumParticles := 12,
    pools := [⟨0, 4, []⟩, ⟨1, 4, []⟩, ⟨2, 4, [⟨8, 2⟩, ⟨9, 2⟩, ⟨10, 2⟩, ⟨11, 2⟩]⟩],
    nextPid := 3, nextHid := 12, attachLog := [0, 1, 2] }

/-! ### Basic facts about the queue flattening and size sum -/

theorem avails_append (A B : List Pool) : avails (A ++ B) = avails A ++ avails B := by
  induction A with
  | nil => simp [avails]
  | cons p ps ih => simp [avails, ih]

theorem avails_eq_nil (A : List Pool) (hA : ∀ q ∈ A, q.available = []) :
    avails A = [] := by
  induction A with
  | nil => rfl
  | cons p ps ih =>
    simp only [avails]
    rw [hA p (by simp), ih fun q hq => hA q (by simp [hq])]
    rfl

theorem sumSizes_append (A B : List Pool) :
    sumSizes (A ++ B) = sumSizes A + sumSizes B := by
  induction A with
  | nil => simp [sumSizes]
  | cons p ps ih => simp [sumSizes, ih]; omega

/-! ### Facts about the `pools.some` scan of `getOrCreateParticle` -/

theorem scanPools_nil (m : ℚ) (c : Nat) : scanPools m c [] = (none, [], c) := rfl

theorem scanPools_cons_found (m : ℚ) (c : Nat) (p : Pool) (ps : List Pool)
    (h : Handle) (t : List Handle) (hp : p.available = h :: t) :
    scanPools m c (p :: ps) = (some h, { p with available := t } :: ps, c) := by
  simp [scanPools, hp]

theorem scanPools_cons_stop (m : ℚ) (c : Nat) (p : Pool) (ps : List Pool)
    (hp : p.available = []) (hc : ((c + p.size : Nat) : ℚ) > m) :
    scanPools m c (p :: ps) = (none, p :: ps, c + p.size) := by
  simp only [scanPools, hp]
  rw [if_pos hc]

theorem scanPools_cons_go (m : ℚ) (c : Nat) (p : Pool) (ps : List Pool)
    (hp : p.available = []) (hc : ¬ ((c + p.size : Nat) : ℚ) > m) :
    scanPools m c (p :: ps) =
      ((scanPools m (c + p.size) ps).1, p :: (scanPools m (c + p.size) ps).2.1,
        (scanPools m (c + p.size) ps).2.2) := by
  simp only [scanPools, hp]
  rw [if_neg hc]

/-- When the scan found a particle, the flattened queues lost exactly that
particle, from the front. -/
theorem scan_some_flat (m : ℚ) :
    ∀ (ps : List Pool) (c : Nat) (h : Handle) (ps2 : List Pool) (c2 : Nat),
      scanPools m c ps = (some h, ps2, c2) → avails ps = h :: avails ps2 := by
  intro ps
  induction ps with
  | nil => intro c h ps2 c2 heq; simp [scanPools_nil] at heq
  | cons p ps ih =>
    intro c h ps2 c2 heq
    cases hp : p.available with
    | cons h0 t =>
      rw [scanPools_cons_found m c p ps h0 t hp] at heq
      simp only [Prod.mk.injEq, Option.some.injEq] at heq
      obtain ⟨rfl, rfl, rfl⟩ := heq
      simp [avails, hp]
    | nil =>
      by_cases hc : ((c + p.size : Nat) : ℚ) > m
      · rw [scanPools_cons_stop m c p ps hp hc] at heq
        simp at heq
      · rw [scanPools_cons_go m c p ps hp hc] at heq
        rcases hr : scanPools m (c + p.size) ps with ⟨r1, r2, r3⟩
        rw [hr] at heq
        simp only [Prod.mk.injEq] at heq
        obtain ⟨rfl, rfl, rfl⟩ := heq
        have := ih (c + p.size) h r2 r3 hr
        simp [avails, hp, this]

/-- When the scan found nothing, the pools come back unchanged. -/
theorem scan_none_pools (m : ℚ) :
    ∀ (ps : List Pool) (c : Nat) (ps2 : List Pool) (c2 : Nat),
      scanPools m c ps = (none, ps2, c2) → ps2 = ps := by
  intro ps
  induction ps with
  | nil => intro c ps2 c2 heq; simp [scanPools_nil] at heq; exact heq.1
  | cons p ps ih =>
    intro c ps2 c2 heq
    cases hp : p.available with
    | cons h0 t =>
      rw [scanPools_cons_found m c p ps h0 t hp] at heq
      simp at heq
    | nil =>
      by_cases hc : ((c + p.size : Nat) : ℚ) > m
      · rw [scanPools_cons_stop m c p ps hp hc] at heq
        simp only [Prod.mk.injEq] at heq
        exact heq.2.1.symm
      · rw [scanPools_cons_go m c p ps hp hc] at heq
        rcases hr : scanPools m (c + p.size) ps with ⟨r1, r2, r3⟩
        rw [hr] at heq
        simp only [Prod.mk.injEq] at heq
        obtain ⟨he1, he2, -⟩ := heq
        rw [← he2, ih (c + p.size) r2 r3 (by rw [hr, ← he1])]

/-- The scan never changes the number of pools. -/
theorem scan_length (m : ℚ) :
    ∀ (ps : List Pool) (c : Nat), ((scanPools m c ps).2.1).length = ps.length := by
  intro ps
  induction ps with
  | nil => intro c; simp [scanPools_nil]
  | cons p ps ih =>
    intro c
    cases hp : p.available with
    | cons h0 t => rw [scanPools_cons_found m c p ps h0 t hp]; simp
    | nil =>
      by_cases hc : ((c + p.size : Nat) : ℚ) > m
      · rw [scanPools_cons_stop m c p ps hp hc]
      · rw [scanPools_cons_go m c p ps hp hc]
        simp [ih (c + p.size)]

/-- A scan that found nothing and whose final count is below the limit
visited every pool (all with empty queues) and summed all their sizes. -/
theorem scan_none_lt (m : ℚ) :
    ∀ (ps : List Pool) (c : Nat) (ps2 : List Pool) (c2 : Nat),
      scanPools m c ps = (none, ps2, c2) → ((c2 : ℚ) < m) →
      (∀ p ∈ ps, p.available = []) ∧ c2 = c + sumSizes ps := by
  intro ps
  induction ps with
  | nil =>
    intro c ps2 c2 heq hlt
    simp [scanPools_nil] at heq
    obtain ⟨-, rfl⟩ := heq
    exact ⟨by simp, by simp [sumSizes]⟩
  | cons p ps ih =>
    intro c ps2 c2 heq hlt
    cases hp : p.available with
    | cons h0 t =>
      rw [scanPools_cons_found m c p ps h0 t hp] at heq
      simp at heq
    | nil =>
      by_cases hc : ((c + p.size : Nat) : ℚ) > m
      · rw [scanPools_cons_stop m c p ps hp hc] at heq
        simp only [Prod.mk.injEq] at heq
        obtain ⟨-, -, rfl⟩ := heq
        exact absurd hlt (not_lt.mpr (le_of_lt hc))
      · rw [scanPools_cons_go m c p ps hp hc] at heq
        rcases hr : scanPools m (c + p.size) ps with ⟨r1, r2, r3⟩
        rw [hr] at heq
        simp only [Prod.mk.injEq] at heq
        obtain ⟨he1, -, rfl⟩ := heq
        obtain ⟨hall, hsum⟩ := ih (c + p.size) r2 r3 (by rw [hr, ← he1]) hlt
        refine ⟨?_, ?_⟩
        · intro q hq
          rcases List.mem_cons.mp hq with rfl | hq
          · exact hp
          · exact hall q hq
        · simp [sumSizes]; omega

/-- Scanning a block of exhausted pools whose total size stays within the
limit reaches the first pool with an available particle and shifts its
queue head. -/
theorem scan_prefix (m : ℚ) (p : Pool) (B : List Pool) (h : Handle) (t : List Handle)
    (hp : p.available = h :: t) :
    ∀ (A : List Pool) (c : Nat), (∀ q ∈ A, q.available = []) →
      ((c + sumSizes A : Nat) : ℚ) ≤ m →
      scanPools m c (A ++ p :: B) =
        (some h, A ++ { p with available := t } :: B, c + sumSizes A) := by
  intro A
  induction A with
  | nil =>
    intro c hA hle
    simpa [sumSizes] using scanPools_cons_found m c p B h t hp
  | cons q A ih =>
    intro c hA hle
    have hq : q.available = [] := hA q (by simp)
    have harith : c + q.size + sumSizes A = c + sumSizes (q :: A) := by
      simp [sumSizes]; omega
    have hc : ¬ ((c + q.size : Nat) : ℚ) > m := by
      rw [not_lt]
      refine le_trans (Nat.cast_le.mpr ?_) hle
      simp only [sumSizes]; omega
    rw [List.cons_append, scanPools_cons_go m c q (A ++ p :: B) hq hc,
      ih (c + q.size) (fun r hr => hA r (by simp [hr])) (by rw [harith]; exact hle)]
    simp [sumSizes, Nat.add_assoc]

/-- Scanning pools that are all exhausted yields no particle, leaves the
pools alone, and ends with either the full size sum or a count that already
exceeded the limit. -/
theorem scan_all_empty (m : ℚ) :
    ∀ (ps : List Pool) (c : Nat), (∀ p ∈ ps, p.available = []) →
      ∃ c2, scanPools m c ps = (none, ps, c2) ∧
        (c2 = c + sumSizes ps ∨ (c2 : ℚ) > m) := by
  intro ps
  induction ps with
  | nil => intro c _; exact ⟨c, scanPools_nil m c, Or.inl (by simp [sumSizes])⟩
  | cons p ps ih =>
    intro c hall
    have hp : p.available = [] := hall p (by simp)
    by_cases hc : ((c + p.size : Nat) : ℚ) > m
    · exact ⟨c + p.size, scanPools_cons_stop m c p ps hp hc, Or.inr hc⟩
    · obtain ⟨c2, hscan, hc2⟩ := ih (c + p.size) fun q hq => hall q (by simp [hq])
      refine ⟨c2, ?_, ?_⟩
      · rw [scanPools_cons_go m c p ps hp hc, hscan]
      · rcases hc2 with hc2 | hc2
        · exact Or.inl (by simp [sumSizes]; omega)
        · exact Or.inr hc2

/-! ### Facts about `mkHandles` -/

theorem mkHandles_length (o st n : Nat) : (mkHandles o st n).length = n := by
  simp [mkHandles]

theorem mkHandles_nodup (o st n : Nat) : (mkHandles o st n).Nodup := by
  refine List.Nodup.map ?_ (List.nodup_range n)
  intro i j hij
  have h2 : st + i = st + j := congrArg Handle.hid hij
  omega

theorem mkHandles_mem (o st n : Nat) (x : Handle) (hx : x ∈ mkHandles o st n) :
    st ≤ x.hid ∧ x.hid < st + n ∧ x.owner = o := by
  simp only [mkHandles, List.mem_map, List.mem_range] at hx
  obtain ⟨i, hi, rfl⟩ := hx
  exact ⟨by simp, by simp; omega, rfl⟩

/-! ### Case analysis of `getOrCreateParticle` -/

theorem getOrCreateAux_found (n : Nat) (s : PoolState) (h : Handle)
    (ps2 : List Pool) (c2 : Nat)
    (hscan : scanPools s.maximumParticles 0 s.pools = (some h, ps2, c2)) :
    getOrCreateAux (n + 1) s = (some h, { s with pools := ps2 }) := by
  simp only [getOrCreateAux]
  rw [hscan]

theorem getOrCreateAux_limit (n : Nat) (s : PoolState) (ps2 : List Pool) (c2 : Nat)
    (hscan : scanPools s.maximumParticles 0 s.pools = (none, ps2, c2))
    (hge : ¬ ((c2 : ℚ) < s.maximumParticles)) :
    getOrCreateAux (n + 1) s = (none, { s with pools := ps2 }) := by
  simp only [getOrCreateAux]
  rw [hscan]
  exact if_neg hge

theorem getOrCreateAux_create (n : Nat) (s : PoolState) (ps2 : List Pool) (c2 : Nat)
    (hscan : scanPools s.maximumParticles 0 s.pools = (none, ps2, c2))
    (hlt : (c2 : ℚ) < s.maximumParticles) :
    getOrCreateAux (n + 1) s = getOrCreateAux n (createGeometry { s with pools := ps2 }) := by
  simp only [getOrCreateAux]
  rw [hscan]
  exact if_pos hlt

/-- The rescan after `createGeometry` was called on a fully exhausted pool
list whose total size is within the limit: it reaches the new pool and
shifts its first particle. -/
theorem scan_after_create (s : PoolState) (h0 : Handle) (t0 : List Handle)
    (hmk : mkHandles s.nextPid s.nextHid s.particlesPerGeometry = h0 :: t0)
    (hall : ∀ p ∈ s.pools, p.available = [])
    (hle : ((sumSizes s.pools : Nat) : ℚ) ≤ s.maximumParticles) :
    scanPools s.maximumParticles 0 (createGeometry s).pools =
      (some h0, s.pools ++ [⟨s.nextPid, (h0 :: t0).length, t0⟩], sumSizes s.pools) := by
  have hpools : (createGeometry s).pools =
      s.pools ++ [⟨s.nextPid, (h0 :: t0).length, h0 :: t0⟩] := by
    simp [createGeometry, hmk]
  rw [hpools]
  have h2 := scan_prefix s.maximumParticles ⟨s.nextPid, (h0 :: t0).length, h0 :: t0⟩ []
    h0 t0 rfl s.pools 0 hall (by simpa using hle)
  simpa using h2

/-- With `particlesPerGeometry ≥ 1` (which option defaulting guarantees),
the JS self-recursion of `getOrCreateParticle` never goes deeper than one
`createGeometry` retry: any fuel of at least 2 computes the same result, so
the fuel-2 embedding is exact. -/
theorem getOrCreateAux_fuel (s : PoolState) (hppg : 1 ≤ s.particlesPerGeometry) (n : Nat) :
    getOrCreateAux (n + 2) s = getOrCreateParticle s := by
  show getOrCreateAux (n + 1 + 1) s = getOrCreateAux (1 + 1) s
  rcases hscan : scanPools s.maximumParticles 0 s.pools with ⟨r1, r2, r3⟩
  cases r1 with
  | some h =>
    rw [getOrCreateAux_found (n + 1) s h r2 r3 hscan, getOrCreateAux_found 1 s h r2 r3 hscan]
  | none =>
    by_cases hlt : (r3 : ℚ) < s.maximumParticles
    · rw [getOrCreateAux_create (n + 1) s r2 r3 hscan hlt,
        getOrCreateAux_create 1 s r2 r3 hscan hlt]
      obtain rfl : r2 = s.pools := scan_none_pools _ _ _ _ _ hscan
      have hseta : ({ s with pools := s.pools } : PoolState) = s := rfl
      rw [hseta]
      obtain ⟨hall, hsum⟩ := scan_none_lt _ _ _ _ _ hscan hlt
      rcases hmk : mkHandles s.nextPid s.nextHid s.particlesPerGeometry with _ | ⟨h0, t0⟩
      · exfalso
        have hlen := mkHandles_length s.nextPid s.nextHid s.particlesPerGeometry
        rw [hmk] at hlen
        simp at hlen
        omega
      · have hle : ((sumSizes s.pools : Nat) : ℚ) ≤ s.maximumParticles := by
          have h3 : r3 = sumSizes s.pools := by omega
          exact le_of_lt (h3 ▸ hlt)
        have hsc2 := scan_after_create s h0 t0 hmk hall hle
        rw [getOrCreateAux_found n (createGeometry s) h0 _ _ hsc2,
          getOrCreateAux_found 0 (createGeometry s) h0 _ _ hsc2]
    · rw [getOrCreateAux_limit (n + 1) s r2 r3 hscan hlt,
        getOrCreateAux_limit 1 s r2 r3 hscan hlt]

/-- Full case analysis of one `allocate` call: either a particle is
returned, and then the old flat queue content extended by the freshly
created handles (`ext`, empty in the reuse case) equals the particle
followed by the new flat queue content; or the limit was hit and the state
comes back unchanged. -/
theorem alloc_spec (s : PoolState) (hppg : 1 ≤ s.particlesPerGeometry) :
    (∃ h ext, (getOrCreateParticle s).1 = some h ∧
      avails s.pools ++ ext = h :: avails ((getOrCreateParticle s).2).pools ∧
      ext.Nodup ∧
      (∀ x ∈ ext, s.nextHid ≤ x.hid ∧ x.hid < ((getOrCreateParticle s).2).nextHid) ∧
      s.nextHid ≤ ((getOrCreateParticle s).2).nextHid ∧
      ((getOrCreateParticle s).2).particlesPerGeometry = s.particlesPerGeometry)
    ∨ getOrCreateParticle s = (none, s) := by
  rcases hscan : scanPools s.maximumParticles 0 s.pools with ⟨r1, r2, r3⟩
  cases r1 with
  | some h =>
    left
    have heq : getOrCreateParticle s = (some h, { s with pools := r2 }) :=
      getOrCreateAux_found 1 s h r2 r3 hscan
    refine ⟨h, [], by simp [heq], ?_, List.nodup_nil, by simp, by simp [heq], by simp [heq]⟩
    rw [heq]
    simpa using scan_some_flat s.maximumParticles s.pools 0 h r2 r3 hscan
  | none =>
    by_cases hlt : (r3 : ℚ) < s.maximumParticles
    · left
      obtain rfl : r2 = s.pools := scan_none_pools _ _ _ _ _ hscan
      obtain ⟨hall, hsum⟩ := scan_none_lt _ _ _ _ _ hscan hlt
      rcases hmk : mkHandles s.nextPid s.nextHid s.particlesPerGeometry with _ | ⟨h0, t0⟩
      · exfalso
        have hlen := mkHandles_length s.nextPid s.nextHid s.particlesPerGeometry
        rw [hmk] at hlen
        simp at hlen
        omega
      · have hle : ((sumSizes s.pools : Nat) : ℚ) ≤ s.maximumParticles := by
          have h3 : r3 = sumSizes s.pools := by omega
          exact le_of_lt (h3 ▸ hlt)
        have hsc2 := scan_after_create s h0 t0 hmk hall hle
        have heq : getOrCreateParticle s =
            (some h0, { createGeometry s with
              pools := s.pools ++ [⟨s.nextPid, (h0 :: t0).length, t0⟩] }) := by
          show getOrCreateAux 2 s = _
          rw [getOrCreateAux_create 1 s s.pools r3 hscan hlt]
          have hseta : ({ s with pools := s.pools } : PoolState) = s := rfl
          rw [hseta]
          exact getOrCreateAux_found 0 (createGeometry s) h0 _ _ hsc2
        refine ⟨h0, h0 :: t0, by simp [heq], ?_, ?_, ?_, ?_, ?_⟩
        · rw [heq, avails_eq_nil s.pools hall]
          simp [avails_append, avails, avails_eq_nil s.pools hall]
        · rw [← hmk]
          exact mkHandles_nodup _ _ _
        · intro x hx
          rw [← hmk] at hx
          obtain ⟨hl, hu, -⟩ := mkHandles_mem _ _ _ x hx
          refine ⟨hl, ?_⟩
          rw [heq]
          simp only [createGeometry]
          exact hu
        · rw [heq]
          simp [createGeometry]
        · rw [heq]
          simp [createGeometry]
    · right
      obtain rfl : r2 = s.pools := scan_none_pools _ _ _ _ _ hscan
      exact getOrCreateAux_limit 1 s s.pools r3 hscan hlt

/-! ### The well-formedness invariant and its preservation -/

/-- Well-formedness of a pool state together with the ghost list `live` of
handles returned by `allocate` and not freed since: no handle occurs twice
across the queues and the live list, every tracked handle id is below the
fresh-id counter, and the resolved `particlesPerGeometry` is positive. -/
structure Inv (s : PoolState) (live : List Handle) : Prop where
  nodup : (avails s.pools ++ live).Nodup
  fresh : ∀ x ∈ avails s.pools ++ live, x.hid < s.nextHid
  ppg_pos : 1 ≤ s.particlesPerGeometry

theorem createGeometry_avails (s : PoolState) :
    avails (createGeometry s).pools =
      avails s.pools ++ mkHandles s.nextPid s.nextHid s.particlesPerGeometry := by
  simp [createGeometry, avails_append, avails]

/-- Reshuffling appended blocks preserves multiset content. -/
theorem perm_shuffle (A M L : List Handle) :
    List.Perm ((A ++ M) ++ L) ((A ++ L) ++ M) := by
  rw [List.append_assoc, List.append_assoc]
  exact List.Perm.append_left A List.perm_append_comm

theorem Inv_createGeometry (s : PoolState) (live : List Handle) (hInv : Inv s live) :
    Inv (createGeometry s) live := by
  have hav := createGeometry_avails s
  refine ⟨?_, ?_, hInv.ppg_pos⟩
  · rw [hav]
    have hperm := perm_shuffle (avails s.pools)
      (mkHandles s.nextPid s.nextHid s.particlesPerGeometry) live
    refine (hperm.nodup_iff).mpr (List.nodup_append.mpr ⟨hInv.nodup, mkHandles_nodup _ _ _, ?_⟩)
    intro x hx hx2
    obtain ⟨hl, -, -⟩ := mkHandles_mem _ _ _ x hx2
    exact absurd (hInv.fresh x hx) (by omega)
  · intro x hx
    rw [hav, List.append_assoc] at hx
    rcases List.mem_append.mp hx with hx | hx
    · have := hInv.fresh x (List.mem_append.mpr (Or.inl hx))
      simp only [createGeometry]
      omega
    · rcases List.mem_append.mp hx with hx | hx
      · obtain ⟨-, hu, -⟩ := mkHandles_mem _ _ _ x hx
        simpa [createGeometry] using hu
      · have := hInv.fresh x (List.mem_append.mpr (Or.inr hx))
        simp only [createGeometry]
        omega

/-- Pushing onto the first pool whose id matches either appends the handle
to the flat queue content (up to permutation) or, when no pool matches,
changes nothing. -/
theorem avails_push (k : Nat) (h : Handle) :
    ∀ ps : List Pool, avails (pushAvailable k h ps) = avails ps ∨
      List.Perm (avails (pushAvailable k h ps)) (h :: avails ps) := by
  intro ps
  induction ps with
  | nil => left; rfl
  | cons p ps ih =>
    by_cases hk : p.pid = k
    · right
      simp only [pushAvailable, if_pos hk, avails]
      have h1 : (p.available ++ [h]) ++ avails ps = p.available ++ (h :: avails ps) := by simp
      rw [h1]
      exact List.perm_middle
    · rcases ih with ih | ih
      · left; simp only [pushAvailable, if_neg hk, avails, ih]
      · right
        simp only [pushAvailable, if_neg hk, avails]
        exact (List.Perm.append_left p.available ih).trans List.perm_middle

theorem freeHandle_pools (h : Handle) (s : PoolState) :
    (freeHandle h s).pools = pushAvailable h.owner h s.pools := rfl

theorem freeHandle_nextHid (h : Handle) (s : PoolState) :
    (freeHandle h s).nextHid = s.nextHid := rfl

theorem freeHandle_ppg (h : Handle) (s : PoolState) :
    (freeHandle h s).particlesPerGeometry = s.particlesPerGeometry := rfl

theorem Inv_free (s : PoolState) (live : List Handle) (h : Handle)
    (hInv : Inv s live) (hmem : h ∈ live) :
    Inv (freeHandle h s) (live.erase h) := by
  refine ⟨?_, ?_, by rw [freeHandle_ppg]; exact hInv.ppg_pos⟩
  · rw [freeHandle_pools]
    rcases avails_push h.owner h s.pools with hp | hp
    · rw [hp]
      exact hInv.nodup.sublist (List.Sublist.append_left (List.erase_sublist h live) _)
    · have hperm : List.Perm
          (avails (pushAvailable h.owner h s.pools) ++ live.erase h)
          (avails s.pools ++ live) := by
        refine List.Perm.trans (hp.append_right _) ?_
        refine List.Perm.trans List.perm_middle.symm ?_
        exact List.Perm.append_left _ (List.perm_cons_erase hmem).symm
      exact (hperm.nodup_iff).mpr hInv.nodup
  · intro x hx
    rw [freeHandle_nextHid]
    rw [freeHandle_pools] at hx
    rcases List.mem_append.mp hx with hx | hx
    · rcases avails_push h.owner h s.pools with hp | hp
      · rw [hp] at hx
        exact hInv.fresh x (List.mem_append.mpr (Or.inl hx))
      · have hx2 := hp.mem_iff.mp hx
        rcases List.mem_cons.mp hx2 with rfl | hx2
        · exact hInv.fresh x (List.mem_append.mpr (Or.inr hmem))
        · exact hInv.fresh x (List.mem_append.mpr (Or.inl hx2))
    · exact hInv.fresh x
        (List.mem_append.mpr (Or.inr (List.mem_of_mem_erase hx)))

/-- Any particle handed out by `allocate` on a well-formed state is not
currently live: it was not returned by an earlier `allocate` without an
intervening `free`. -/
theorem alloc_not_live (s : PoolState) (live : List Handle) (h : Handle)
    (hInv : Inv s live) (hh : (getOrCreateParticle s).1 = some h) : h ∉ live := by
  rcases alloc_spec s hInv.ppg_pos with ⟨h2, ext, hh2, heq, -, hext, -, -⟩ | hnone
  · rw [hh2] at hh
    have hhe : h2 = h := by injection hh
    rw [hhe] at heq
    have hmem : h ∈ avails s.pools ++ ext := by
      rw [heq]
      exact List.mem_cons_self ..
    intro hlive
    rcases List.mem_append.mp hmem with hm | hm
    · have hnd := hInv.nodup
      rw [List.nodup_append] at hnd
      exact hnd.2.2 hm hlive
    · have hlo := (hext h hm).1
      have hup := hInv.fresh h (List.mem_append.mpr (Or.inr hlive))
      omega
  · rw [hnone] at hh
    simp at hh

theorem Inv_alloc (s : PoolState) (live : List Handle) (hInv : Inv s live) :
    Inv (stepOp (s, live) Op.alloc).1 (stepOp (s, live) Op.alloc).2 := by
  rcases alloc_spec s hInv.ppg_pos with ⟨h, ext, hh, heq, hnd, hext, hmono, hppg⟩ | hnone
  · have hstep : stepOp (s, live) Op.alloc = ((getOrCreateParticle s).2, h :: live) := by
      simp only [stepOp, hh]
    rw [hstep]
    show Inv (getOrCreateParticle s).2 (h :: live)
    set s2 := (getOrCreateParticle s).2 with hs2
    refine ⟨?_, ?_, by rw [hppg]; exact hInv.ppg_pos⟩
    · have hperm : List.Perm (avails s2.pools ++ (h :: live))
          ((avails s.pools ++ live) ++ ext) := by
        refine List.Perm.trans List.perm_middle ?_
        show List.Perm ((h :: avails s2.pools) ++ live) _
        rw [← heq]
        exact perm_shuffle (avails s.pools) ext live
      refine (hperm.nodup_iff).mpr (List.nodup_append.mpr ⟨hInv.nodup, hnd, ?_⟩)
      intro x hx hx2
      have h1 := (hext x hx2).1
      have h2 := hInv.fresh x hx
      omega
    · intro x hx
      have hx2 : x ∈ avails s.pools ++ ext ∨ x ∈ live := by
        rcases List.mem_append.mp hx with hx | hx
        · exact Or.inl (by rw [heq]; exact List.mem_cons_of_mem h hx)
        · rcases List.mem_cons.mp hx with rfl | hx
          · exact Or.inl (by rw [heq]; exact List.mem_cons_self ..)
          · exact Or.inr hx
      rcases hx2 with hx2 | hx2
      · rcases List.mem_append.mp hx2 with hx3 | hx3
        · have := hInv.fresh x (List.mem_append.mpr (Or.inl hx3))
          omega
        · exact (hext x hx3).2
      · have := hInv.fresh x (List.mem_append.mpr (Or.inr hx2))
        omega
  · have hstep : stepOp (s, live) Op.alloc = (s, live) := by
      simp only [stepOp, hnone]
    rw [hstep]
    exact hInv

theorem Inv_run (ops : List Op) :
    ∀ st : PoolState × List Handle, ValidOps st ops → Inv st.1 st.2 →
      Inv (runOps st ops).1 (runOps st ops).2 := by
  induction ops with
  | nil => intro st _ hInv; exact hInv
  | cons op ops ih =>
    intro st hv hInv
    cases op with
    | alloc => exact ih (stepOp st Op.alloc) hv (Inv_alloc st.1 st.2 hInv)
    | free h =>
      obtain ⟨hmem, hv2⟩ := hv
      exact ih (stepOp st (Op.free h)) hv2 (Inv_free st.1 st.2 h hInv hmem)

theorem resolve_ppg_pos (o : Options) : 1 ≤ (resolve o).particlesPerGeometry := by
  simp only [resolve]
  split
  · omega
  · omega

theorem Inv_mk (o : Options) (now : ℤ) : Inv (mkPoolState o now) [] := by
  have hbase : ∀ (n : Nat) (s : PoolState), Inv s [] → Inv (createGeometries n s) [] := by
    intro n
    induction n with
    | zero => intro s hInv; exact hInv
    | succ n ih => intro s hInv; exact ih (createGeometry s) (Inv_createGeometry s [] hInv)
  refine hbase _ _ ⟨by simp [avails], by simp [avails], resolve_ppg_pos o⟩

/-! ### Remaining helper lemmas -/

theorem getOrCreateParticle_found (s : PoolState) (h : Handle) (ps2 : List Pool) (c2 : Nat)
    (hscan : scanPools s.maximumParticles 0 s.pools = (some h, ps2, c2)) :
    getOrCreateParticle s = (some h, { s with pools := ps2 }) :=
  getOrCreateAux_found 1 s h ps2 c2 hscan

theorem getOrCreateParticle_limit (s : PoolState) (ps2 : List Pool) (c2 : Nat)
    (hscan : scanPools s.maximumParticles 0 s.pools = (none, ps2, c2))
    (hge : ¬ ((c2 : ℚ) < s.maximumParticles)) :
    getOrCreateParticle s = (none, { s with pools := ps2 }) :=
  getOrCreateAux_limit 1 s ps2 c2 hscan hge

/-- Pushing through the `free` closure of the pool with id `k` appends to
that pool's queue and touches no other pool. -/
theorem push_split (k : Nat) (h : Handle) (p : Pool) (hp : p.pid = k) :
    ∀ (A B : List Pool), (∀ q ∈ A, q.pid ≠ k) →
      pushAvailable k h (A ++ p :: B) =
        A ++ { p with available := p.available ++ [h] } :: B := by
  intro A
  induction A with
  | nil => intro B _; simp [pushAvailable, hp]
  | cons q A ih =>
    intro B hA
    have hq : q.pid ≠ k := hA q (by simp)
    simp only [List.cons_append, pushAvailable, if_neg hq, List.append_eq]
    rw [ih B fun r hr => hA r (by simp [hr])]

theorem createGeometries_max (n : Nat) :
    ∀ s : PoolState, (createGeometries n s).maximumParticles = s.maximumParticles := by
  induction n with
  | zero => intro s; rfl
  | succ n ih => intro s; exact (ih (createGeometry s)).trans rfl

theorem jsMin_le_right (a b : ℚ) : jsMin a b ≤ b := by
  rw [jsMin]
  split
  · assumption
  · exact le_refl b

/-! ### The claims -/

/-- C1 (amended): on a pool state whose queues hold no duplicate handle (as
in every state the manager builds), if some segment has a non-empty
available queue AND the total size of the segments before the earliest such
segment does not exceed `maximumParticles`, then `allocate()` removes and
returns the handle at the front of that segment's queue, later segments are
untouched, and the returned handle is no longer in any segment's available
queue. (Without the size bound the claim fails: see the counterexample,
where the scan gives up before reaching the non-empty segment.) -/
theorem C1_alloc_front_of_earliest (s : PoolState) (A B : List Pool) (p : Pool)
    (h : Handle) (t : List Handle)
    (hps : s.pools = A ++ p :: B)
    (hA : ∀ q ∈ A, q.available = [])
    (hp : p.available = h :: t)
    (hsum : ((sumSizes A : Nat) : ℚ) ≤ s.maximumParticles)
    (hnd : (avails s.pools).Nodup) :
    getOrCreateParticle s =
      (some h, { s with pools := A ++ { p with available := t } :: B })
    ∧ h ∉ avails (A ++ { p with available := t } :: B) := by
  have hscan : scanPools s.maximumParticles 0 s.pools =
      (some h, A ++ { p with available := t } :: B, 0 + sumSizes A) := by
    rw [hps]
    exact scan_prefix s.maximumParticles p B h t hp A 0 hA (by simpa using hsum)
  refine ⟨getOrCreateParticle_found s h _ _ hscan, ?_⟩
  have hflat := scan_some_flat s.maximumParticles s.pools 0 h _ _ hscan
  rw [hflat] at hnd
  exact (List.nodup_cons.mp hnd).1

/-- C1 witness: on `w1`, segment 0 is exhausted (size 1 within the limit 5)
and segment 1 is the earliest with availability; `allocate` shifts its
front handle 3. -/
theorem C1_alloc_front_of_earliest_witness :
    getOrCreateParticle w1 =
      (some ⟨3, 1⟩, { w1 with pools := [⟨0, 1, []⟩] ++ (⟨1, 2, [⟨4, 1⟩]⟩ : Pool) :: [⟨2, 2, [⟨5, 2⟩]⟩] })
    ∧ (⟨3, 1⟩ : Handle) ∉ avails ([⟨0, 1, []⟩] ++ (⟨1, 2, [⟨4, 1⟩]⟩ : Pool) :: [⟨2, 2, [⟨5, 2⟩]⟩]) :=
  C1_alloc_front_of_earliest w1 [⟨0, 1, []⟩] [⟨2, 2, [⟨5, 2⟩]⟩]
    ⟨1, 2, [⟨3, 1⟩, ⟨4, 1⟩]⟩ ⟨3, 1⟩ [⟨4, 1⟩]
    (by decide) (by decide) (by decide) (by decide) (by decide)

/-- C1 counterexample: in `c1s` segment 3 has five available handles, yet
`allocate()` returns null and changes nothing, because the sizes of the
exhausted segments 0..2 sum to 15 > `maximumParticles` = 10 and the scan
stops early. Therefore the unamended claim (`allocate` always serves the
earliest non-empty segment) is false. -/
theorem C1_alloc_front_of_earliest_counterexample :
    (∃ p ∈ c1s.pools, p.available ≠ []) ∧ getOrCreateParticle c1s = (none, c1s) := by
  decide

/-- C3: when every segment's available queue is empty and the segment sizes
sum to at least `maximumParticles`, `allocate()` returns null and the state
(in particular the number of segments) is unchanged. -/
theorem C3_alloc_null_at_capacity (s : PoolState)
    (hall : ∀ p ∈ s.pools, p.available = [])
    (hge : s.maximumParticles ≤ ((sumSizes s.pools : Nat) : ℚ)) :
    getOrCreateParticle s = (none, s) := by
  obtain ⟨c2, hscan, hc2⟩ := scan_all_empty s.maximumParticles s.pools 0 hall
  refine getOrCreateParticle_limit s s.pools c2 hscan ?_
  rcases hc2 with rfl | hgt
  · rw [not_lt]
    simpa using hge
  · rw [not_lt]
    exact le_of_lt hgt

/-- C3 witness: `w3` is one exhausted segment of size 2 with the limit 2;
`allocate` returns null and leaves the state alone. -/
theorem C3_alloc_null_at_capacity_witness : getOrCreateParticle w3 = (none, w3) :=
  C3_alloc_null_at_capacity w3 (by decide) (by decide)

/-- C10: on `c10s` the exhausted segments 0 and 1 sum to 8 > 7 =
`maximumParticles`, so the scan stops before segment 2 and `allocate()`
returns null even though segment 2 has four available handles. -/
theorem C10_scan_stops_early :
    (getOrCreateParticle c10s).1 = none
    ∧ (getOrCreateParticle c10s).2 = c10s
    ∧ (∃ p ∈ c10s.pools, p.available ≠ []) := by
  decide

/-- C2: over any sequence of `allocate` and correctly routed `free(handle)`
operations on a freshly constructed pool, in which every `free` targets a
handle that is currently in use (the free contract: "caller supplies a
Handle previously returned by allocate()"), an `allocate` never returns a
handle that is still live. The ghost list `live` threaded by `runOps` is by
construction exactly the handles returned by `allocate` and not freed
since, so this states: no handle is returned by `allocate()` twice without
an intervening `free` of it. -/
theorem C2_live_handles_unique (o : Options) (now : ℤ) (ops : List Op)
    (s : PoolState) (live : List Handle) (h : Handle)
    (hv : ValidOps (mkPoolState o now, []) ops)
    (hrun : runOps (mkPoolState o now, []) ops = (s, live))
    (hh : (getOrCreateParticle s).1 = some h) : h ∉ live := by
  have hInv := Inv_run ops (mkPoolState o now, []) hv (Inv_mk o now)
  rw [hrun] at hInv
  exact alloc_not_live s live h hInv hh

/-- C2 witness: after one allocation on a pool built from `w2o` (which
returned handle 0), the next allocation returns handle 1, which is not
live. -/
theorem C2_live_handles_unique_witness :
    ValidOps (mkPoolState w2o 0, []) [Op.alloc]
    ∧ runOps (mkPoolState w2o 0, []) [Op.alloc] = (w2s, [⟨0, 0⟩])
    ∧ (getOrCreateParticle w2s).1 = some ⟨1, 0⟩
    ∧ (⟨1, 0⟩ : Handle) ∉ [(⟨0, 0⟩ : Handle)] :=
  ⟨trivial, by decide, by decide,
    C2_live_handles_unique w2o 0 [Op.alloc] w2s [⟨0, 0⟩] ⟨1, 0⟩ trivial
      (by decide) (by decide)⟩

/-- C4: writing `fi` for `firstIdlePoolIndex` (one past the last segment
whose available queue length differs from its size) and
`idle = segments - fi` for the number of trailing fully idle segments: when
`idle > 1`, `cleanUp` keeps exactly the segments up to and including the
one at index `fi` (the spare), removes the other `idle - 1` idle segments,
detaches each removed segment's mesh from the collaborator and clears its
available queue; when `idle ≤ 1` it changes nothing. -/
theorem C4_cleanup_keeps_one_spare (s : PoolState) (fi idle : Nat)
    (hfi : fi = firstIdleIndex s.pools)
    (hidle : idle = s.pools.length - fi) :
    (1 < idle →
      (cleanUp s).pools = s.pools.take (fi + 1)
      ∧ (cleanUp s).pools.length = s.pools.length - (idle - 1)
      ∧ (cleanUp s).pools.get? fi = s.pools.get? fi
      ∧ (cleanUp s).detachLog = s.detachLog ++ (s.pools.drop (fi + 1)).map Pool.pid
      ∧ (cleanUp s).destroyed = s.destroyed ++ (s.pools.drop (fi + 1)).map clearPool
      ∧ ∀ q ∈ (s.pools.drop (fi + 1)).map clearPool, q.available = [])
    ∧ (idle ≤ 1 → cleanUp s = s) := by
  subst hfi
  subst hidle
  constructor
  · intro hgt
    have hcl : cleanUp s = { s with
        pools := s.pools.take (firstIdleIndex s.pools + 1),
        detachLog := s.detachLog ++
          (s.pools.drop (firstIdleIndex s.pools + 1)).map Pool.pid,
        destroyed := s.destroyed ++
          (s.pools.drop (firstIdleIndex s.pools + 1)).map clearPool } := by
      simp only [cleanUp]
      rw [if_pos hgt]
    rw [hcl]
    refine ⟨rfl, ?_, ?_, rfl, rfl, ?_⟩
    · simp only [List.length_take]
      omega
    · exact List.get?_take (by omega)
    · intro q hq
      simp only [List.mem_map] at hq
      obtain ⟨r, -, rfl⟩ := hq
      rfl
  · intro hle
    simp only [cleanUp]
    rw [if_neg (by omega)]

/-- C4 witness: `w4` has three trailing idle segments (`fi = 0`,
`idle = 3`); cleanup keeps the one at index 0 and removes and detaches the
other two, with their queues cleared. -/
theorem C4_cleanup_keeps_one_spare_witness :
    (cleanUp w4).pools = w4.pools.take (0 + 1)
    ∧ (cleanUp w4).pools.length = w4.pools.length - (3 - 1)
    ∧ (cleanUp w4).pools.get? 0 = w4.pools.get? 0
    ∧ (cleanUp w4).detachLog = w4.detachLog ++ (w4.pools.drop (0 + 1)).map Pool.pid
    ∧ (cleanUp w4).destroyed = w4.destroyed ++ (w4.pools.drop (0 + 1)).map clearPool
    ∧ ∀ q ∈ (w4.pools.drop (0 + 1)).map clearPool, q.available = [] :=
  (C4_cleanup_keeps_one_spare w4 0 3 (by decide) (by decide)).1 (by decide)

/-- C5 (amended): `free(h)` immediately followed by `allocate()` returns
the same handle `h` provided the pool was exhausted at the free (every
available queue empty) and the scan reaches `h`'s segment (the sizes of the
segments before it sum to at most `maximumParticles`). For arbitrary
states the round-trip fails, because a freed handle is pushed to the BACK
of its segment's queue while `allocate` shifts the FRONT of the earliest
non-empty queue: see the counterexample. -/
theorem C5_free_then_alloc_roundtrip (s s2 : PoolState) (h : Handle)
    (A B : List Pool) (p : Pool)
    (hps : s.pools = A ++ p :: B)
    (hA : ∀ q ∈ A, q.pid ≠ h.owner)
    (hp : p.pid = h.owner)
    (hempty : ∀ q ∈ s.pools, q.available = [])
    (hsum : ((sumSizes A : Nat) : ℚ) ≤ s.maximumParticles)
    (hfree : (freePoolParticle h.owner (some h) s).toOption = some s2) :
    (getOrCreateParticle s2).1 = some h := by
  have hs2 : s2 = { setPosition s h.hid s.offPos with
      pools := pushAvailable h.owner h (setPosition s h.hid s.offPos).pools } := by
    simp only [freePoolParticle, Except.toOption, Option.some.injEq] at hfree
    exact hfree.symm
  subst hs2
  have hA2 : ∀ q ∈ A, q.available = [] := fun q hq =>
    hempty q (by rw [hps]; exact List.mem_append.mpr (Or.inl hq))
  have hpav : p.available = [] :=
    hempty p (by rw [hps]; exact List.mem_append.mpr (Or.inr (List.mem_cons_self ..)))
  have hpush : pushAvailable h.owner h s.pools = A ++ { p with available := [h] } :: B := by
    rw [hps, push_split h.owner h p hp A B hA, hpav]
    simp
  have hscan := scan_prefix s.maximumParticles { p with available := [h] } B h [] rfl
    A 0 hA2 (by simpa using hsum)
  have hXp : ({ setPosition s h.hid s.offPos with
      pools := pushAvailable h.owner h (setPosition s h.hid s.offPos).pools } :
      PoolState).pools = A ++ { p with available := [h] } :: B := hpush
  rw [getOrCreateParticle_found _ h _ _ (by rw [hXp]; exact hscan)]

/-- C5 witness: on the exhausted pool `w5`, freeing handle 1 (owned by
segment 1) and allocating again returns handle 1. -/
theorem C5_free_then_alloc_roundtrip_witness :
    (getOrCreateParticle w5f).1 = some ⟨1, 1⟩ :=
  C5_free_then_alloc_roundtrip w5 w5f ⟨1, 1⟩ [⟨0, 1, []⟩] [] ⟨1, 1, []⟩
    (by decide) (by decide) (by decide) (by decide) (by decide) (by decide)

/-- C5 counterexample: running one `allocate` on a pool built from `c5o`
reaches `c5s` with the ghost live list `[⟨0, 0⟩]` — handle 0 was returned
by `allocate()` and not freed since, and segment 0 still holds handle 1 in
its queue. Freeing handle 0 through its own segment's closure (the
correctly routed `handle.free()`) and then allocating with nothing in
between returns handle 1, not handle 0: the freed handle went to the back
of the queue while `allocate` shifts the front. So the unamended
round-trip claim is false for a handle previously returned by
`allocate()`. -/
theorem C5_free_then_alloc_roundtrip_counterexample :
    runOps (mkPoolState c5o 0, []) [Op.alloc] = (c5s, [⟨0, 0⟩])
    ∧ (getOrCreateParticle (freeHandle ⟨0, 0⟩ c5s)).1 = some ⟨1, 0⟩
    ∧ (⟨1, 0⟩ : Handle) ≠ ⟨0, 0⟩ := by
  decide

/-- C6 (amended): `freePoolParticle` fails fast with the invalid-context
error exactly when the call context is absent or lacks a callable `free`
property (`ctx = none`), in which case no new state is produced and no
queue is modified; with ANY handle context it succeeds, moves the context
handle to the off-screen detached position and pushes it onto the back of
the queue of the segment whose `free` closure was invoked — its own
segment's queue when correctly routed. The original claim is false: the
code does not reject a free routed through another segment's closure (the
context has a `free` function, so the guard passes); see the
counterexample. -/
theorem C6_free_context_check (s s2 : PoolState) (segPid : Nat) (h : Handle)
    (hfree : (freePoolParticle segPid (some h) s).toOption = some s2) :
    freePoolParticle segPid none s = Except.error FreeError.invalidHandleContext
    ∧ posOf s2 h.hid = s.offPos
    ∧ s2.pools = pushAvailable segPid h s.pools := by
  have hs2 : s2 = { setPosition s h.hid s.offPos with
      pools := pushAvailable segPid h (setPosition s h.hid s.offPos).pools } := by
    simp only [freePoolParticle, Except.toOption, Option.some.injEq] at hfree
    exact hfree.symm
  subst hs2
  refine ⟨rfl, ?_, rfl⟩
  simp [posOf, setPosition, List.find?]

/-- C6 witness: on `w6`, a free with no context fails with the
invalid-context error, and the correctly routed free of handle 3 detaches
it and pushes it onto segment 0's queue. -/
theorem C6_free_context_check_witness :
    freePoolParticle 0 none w6 = Except.error FreeError.invalidHandleContext
    ∧ posOf w6f 3 = w6.offPos
    ∧ w6f.pools = pushAvailable 0 ⟨3, 0⟩ w6.pools :=
  C6_free_context_check w6 w6f 0 ⟨3, 0⟩ (by decide)

/-- C6 counterexample: handle 7 belongs to segment 1, yet invoking segment
0's `free` closure with it as context succeeds (no error) and pushes it
onto segment 0's queue — the claim that such a wrongly routed free fails
fast and modifies no queue is false on the code. -/
theorem C6_free_context_check_counterexample :
    (0 : Nat) ≠ (⟨7, 1⟩ : Handle).owner
    ∧ ((freePoolParticle 0 (some ⟨7, 1⟩) c6s).toOption.map
        fun s2 => s2.pools.map Pool.available) = some [[⟨7, 1⟩], []] := by
  decide

/-- C7 (amended): constructing with `maximumParticles = 0` does NOT freeze
the segment count — the option is falsy, so the constructor replaces it by
the default 100000 (first conjunct), and allocation can then create
segments (see the counterexample). The behaviour the claim describes holds
only of states whose internal limit is 0: there `allocate` never changes
the number of segments (second conjunct) and can still serve a particle
from an existing segment's queue (third conjunct). -/
theorem C7_max_zero_defaulted :
    (∀ (o : Options) (now : ℤ), o.maximumParticles = 0 →
      (mkPoolState o now).maximumParticles = 100000)
    ∧ (∀ s : PoolState, s.maximumParticles = 0 →
      ((getOrCreateParticle s).2).pools.length = s.pools.length)
    ∧ (∀ (s : PoolState) (pid sz : Nat) (h : Handle) (t : List Handle) (ps : List Pool),
      s.maximumParticles = 0 → s.pools = ⟨pid, sz, h :: t⟩ :: ps →
      (getOrCreateParticle s).1 = some h) := by
  refine ⟨?_, ?_, ?_⟩
  · intro o now hmax
    simp only [mkPoolState]
    rw [createGeometries_max]
    simp [resolve, hmax]
  · intro s hmax
    rcases hscan : scanPools s.maximumParticles 0 s.pools with ⟨r1, r2, r3⟩
    have hlen : r2.length = s.pools.length := by
      have h2 := scan_length s.maximumParticles s.pools 0
      rw [hscan] at h2
      exact h2
    cases r1 with
    | some h =>
      rw [getOrCreateParticle_found s h r2 r3 hscan]
      exact hlen
    | none =>
      have hnlt : ¬ ((r3 : ℚ) < s.maximumParticles) := by
        rw [hmax, not_lt]
        exact Nat.cast_nonneg r3
      rw [getOrCreateParticle_limit s r2 r3 hscan hnlt]
      exact hlen
  · intro s pid sz h t ps hmax hps
    have hscan : scanPools s.maximumParticles 0 s.pools =
        (some h, { pid := pid, size := sz, available := t } :: ps, 0) := by
      rw [hps]
      exact scanPools_cons_found s.maximumParticles 0 ⟨pid, sz, h :: t⟩ ps h t rfl
    rw [getOrCreateParticle_found s h _ _ hscan]

/-- C7 witness: on `w7` (internal limit 0 with one available particle),
allocation keeps the segment count and serves handle 0. -/
theorem C7_max_zero_defaulted_witness :
    ((getOrCreateParticle w7).2).pools.length = w7.pools.length
    ∧ (getOrCreateParticle w7).1 = some ⟨0, 0⟩ :=
  ⟨C7_max_zero_defaulted.2.1 w7 (by decide),
    C7_max_zero_defaulted.2.2 w7 0 1 ⟨0, 0⟩ [] [] (by decide) (by decide)⟩

/-- C7 counterexample: the options `c7o` set `maximumParticles = 0` and
pre-allocate 0 segments, yet a single `allocate()` grows the pool to one
segment — the claim that the segment count stays at the pre-allocated
count is false on the code (0 is falsy and becomes the default 100000). -/
theorem C7_max_zero_defaulted_counterexample :
    c7o.maximumParticles = 0
    ∧ (mkPoolState c7o 0).pools.length = 0
    ∧ ((getOrCreateParticle (mkPoolState c7o 0)).2).pools.length = 1 := by
  decide

/-- C8: with a falsy (absent or 0) `absoluteCount`, `increasePool` sets
`maximumParticles` to `min(maximumParticles * r, (segments + 1) *
particlesPerGeometry)` where `r` is the supplied (truthy) ratio or else
`defaultAdjustmentRatio`; in particular the new limit never authorizes
more than one additional segment's worth of capacity beyond the current
segment count. -/
theorem C8_growPool_capped (s : PoolState) (ratio absoluteCount : Option ℚ)
    (habs : truthy absoluteCount = none) :
    (increasePool ratio absoluteCount s).maximumParticles =
      jsMin (s.maximumParticles * ((truthy ratio).getD s.adjustmentRatio))
        ((s.pools.length + 1) * s.particlesPerGeometry)
    ∧ (increasePool ratio absoluteCount s).maximumParticles ≤
      ((s.pools.length + 1) * s.particlesPerGeometry : ℚ) := by
  have hinc : (increasePool ratio absoluteCount s).maximumParticles =
      jsMin (s.maximumParticles * ((truthy ratio).getD s.adjustmentRatio))
        ((s.pools.length + 1) * s.particlesPerGeometry) := by
    simp only [increasePool, habs]
  exact ⟨hinc, by rw [hinc]; exact jsMin_le_right _ _⟩

/-- C8 witness: growing `w8` (limit 100, one segment of 5) by ratio 2 caps
the new limit at `(1 + 1) * 5 = 10`. -/
theorem C8_growPool_capped_witness :
    (increasePool (some 2) none w8).maximumParticles =
      jsMin (w8.maximumParticles * ((truthy (some 2)).getD w8.adjustmentRatio))
        ((w8.pools.length + 1) * w8.particlesPerGeometry)
    ∧ (increasePool (some 2) none w8).maximumParticles ≤
      ((w8.pools.length + 1) * w8.particlesPerGeometry : ℚ) :=
  C8_growPool_capped w8 (some 2) none (by decide)

/-- C9 (amended): the cleanup pass inside `tick`/`update` runs iff STRICTLY
more than `cleanupInterval` ms have elapsed since `lastCleanup` (the code
compares with `>`, so a tick at exactly `lastCleanup + cleanupInterval`
skips — the claim's "at least" is off by the boundary case, see the
counterexample); a tick that skips leaves the state, in particular
`lastCleanup`, unchanged, and `lastCleanup` is set to the tick time exactly
when the pass runs. Consequently, after a tick that ran cleanup at `now`,
any tick within the following interval window does nothing. -/
theorem C9_cleanup_interval_gating (s : PoolState) (now later : ℤ) :
    (now - s.lastCleanup > s.cleanupInterval →
      update now s = { cleanUp s with lastCleanup := now })
    ∧ (now - s.lastCleanup ≤ s.cleanupInterval → update now s = s)
    ∧ (now - s.lastCleanup > s.cleanupInterval → later - now ≤ s.cleanupInterval →
      update later (update now s) = update now s) := by
  have hint : (cleanUp s).cleanupInterval = s.cleanupInterval := by
    simp only [cleanUp]
    split
    · rfl
    · rfl
  refine ⟨fun hgt => ?_, fun hle => ?_, fun hgt hle => ?_⟩
  · simp only [update]
    rw [if_pos hgt]
  · simp only [update]
    rw [if_neg (not_lt.mpr hle)]
  · have h1 : update now s = { cleanUp s with lastCleanup := now } := by
      simp only [update]
      rw [if_pos hgt]
    rw [h1]
    have hcond : ¬ (later - ({ cleanUp s with lastCleanup := now } : PoolState).lastCleanup >
        ({ cleanUp s with lastCleanup := now } : PoolState).cleanupInterval) := by
      show ¬ (later - now > (cleanUp s).cleanupInterval)
      rw [hint]
      omega
    simp only [update]
    rw [if_neg hcond]

/-- C9 witness: with interval 10 and last cleanup at 0, a tick at 20 runs
the pass and stamps `lastCleanup := 20`; a further tick at 25 (within the
window) changes nothing. -/
theorem C9_cleanup_interval_gating_witness :
    update 20 c9s = { cleanUp c9s with lastCleanup := 20 }
    ∧ update 25 (update 20 c9s) = update 20 c9s :=
  ⟨(C9_cleanup_interval_gating c9s 20 25).1 (by decide),
    (C9_cleanup_interval_gating c9s 20 25).2.2 (by decide) (by decide)⟩

/-- C9 counterexample: with interval 10 and last cleanup at 0, at time 10
"at least `cleanupIntervalMs` has elapsed" (10 - 0 ≥ 10), yet `update`
leaves `lastCleanup` at 0 — the pass did not run (had it run,
`lastCleanup` would be 10), so the claim's "if and only if at least ...
elapsed" is false at the boundary; the code requires strictly more. -/
theorem C9_cleanup_interval_gating_counterexample :
    (10 : ℤ) - c9s.lastCleanup ≥ c9s.cleanupInterval
    ∧ (update 10 c9s).lastCleanup = 0
    ∧ (0 : ℤ) ≠ 10 := by
  decide

end DPP
